import Mathlib

/-!
Verification of `preprocessor_analyzer.py` (MemTools).

This file shallowly embeds the program's data model and operations in Lean:
Python strings become `String`/`List Char`, Python dicts become insertion-ordered
association lists with in-place update, the regex scans of the source are
embedded as dedicated character-level scanners implementing exactly the regex
each one replaces, and Python's unbounded integers become `Int`/`Nat`.
Code that can raise (the array-range unpacking) returns `Except`.
All inputs considered are ASCII, matching the analyzed fixtures, so the
ASCII readings of `\w`, `\s`, `\d`, `str.strip`, `str.lower` are used.
Recursions carry an explicit fuel argument where Lean needs one; the fuel
supplied by each wrapper strictly exceeds the characters (or tokens) consumed,
one or more per recursive call, so it never runs out.
-/

namespace MemTools

/-- ASCII reading of the regex class `\w` (letters, digits, underscore). -/
def isWordChar (c : Char) : Bool := c.isAlpha || c.isDigit || c = '_'

/-- ASCII reading of Python whitespace (`str.strip`, regex `\s`). -/
def isPySpace (c : Char) : Bool :=
  c = ' ' || c = '\t' || c = '\n' || c = '\r' || c = '\x0b' || c = '\x0c'

/-- Python `str.strip()` with no argument: drop whitespace from both ends. -/
def pystrip (s : String) : String :=
  ⟨((s.data.dropWhile isPySpace).reverse.dropWhile isPySpace).reverse⟩

/-- Python `str.lower()` (ASCII). -/
def pylower (s : String) : String := ⟨s.data.map Char.toLower⟩

/-- Python `s.startswith(pre)`. -/
def pystarts (s pre : String) : Bool := pre.data.isPrefixOf s.data

/-- Python slicing `s[n:]` (by characters). -/
def pydrop (s : String) (n : Nat) : String := ⟨s.data.drop n⟩

/-- Python `sep in s` for a single-character `sep`. -/
def pycontains (s : String) (c : Char) : Bool := s.data.contains c

/-- Python `s.split(sep)` for a single-character separator: keeps empty
pieces, as Python does. -/
def splitChars (sep : Char) : List Char → List (List Char)
  | [] => [[]]
  | c :: cs =>
    if c = sep then [] :: splitChars sep cs
    else
      match splitChars sep cs with
      | t :: ts => (c :: t) :: ts
      | [] => [[c]]

/-- Python `s.split(sep)` on `String`s, single-character separator. -/
def pysplit (s : String) (sep : Char) : List String :=
  (splitChars sep s.data).map (fun t => (⟨t⟩ : String))

/-- Python `'\n'.join(lines)`. -/
def joinNl : List String → String
  | [] => ""
  | [s] => s
  | s :: rest => s ++ "\n" ++ joinNl rest

/-- Python `str.split()` with no argument: tokens separated by whitespace
runs.  Each recursive call consumes at least one character. -/
def pysplitWsAux : Nat → List Char → List (List Char)
  | 0, _ => []
  | _, [] => []
  | fuel + 1, c :: cs =>
    if isPySpace c then pysplitWsAux fuel cs
    else
      (c :: cs.takeWhile (fun d => !isPySpace d)) ::
        pysplitWsAux fuel (cs.dropWhile (fun d => !isPySpace d))

/-- Python `str.split()` with no argument. -/
def pysplitWs (cs : List Char) : List (List Char) := pysplitWsAux (cs.length + 1) cs

/-- `line.split()[-1]`: the last whitespace-separated token (the call sites
only reach this on non-blank lines, where the token list is non-empty). -/
def lastToken (s : String) : String :=
  match (pysplitWs s.data).getLast? with
  | some t => ⟨t⟩
  | none => ""

/-- Python dict lookup `d.get(k)` on an insertion-ordered association list. -/
def dget {α : Type} (d : List (String × α)) (k : String) : Option α :=
  (d.find? (fun p => p.1 == k)).map Prod.snd

/-- Python dict lookup with default, `d.get(k, v0)`. -/
def dgetD {α : Type} (d : List (String × α)) (k : String) (v0 : α) : α :=
  (dget d k).getD v0

/-- Python `k in d`. -/
def dmem {α : Type} (d : List (String × α)) (k : String) : Bool :=
  (d.find? (fun p => p.1 == k)).isSome

/-- Python dict assignment `d[k] = v`: overwrite in place, or append. -/
def dset {α : Type} (d : List (String × α)) (k : String) (v : α) : List (String × α) :=
  if dmem d k then d.map (fun p => if p.1 == k then (k, v) else p) else d ++ [(k, v)]

/-- Python `d.update(other)`: assign every entry of `other` in order. -/
def dupdate {α : Type} (d other : List (String × α)) : List (String × α) :=
  other.foldl (fun acc p => dset acc p.1 p.2) d

/-- Python `s.replace(old, new)`: all non-overlapping occurrences, left to
right, continuing after each replacement.  An empty `old` intersperses `new`
at every position, as in Python.  Each recursive call consumes at least one
character of the subject. -/
def replaceAllAux (pat rep : List Char) : Nat → List Char → List Char
  | _, [] => if pat.isEmpty then rep else []
  | 0, cs => cs
  | fuel + 1, c :: cs =>
    match pat with
    | [] => rep ++ c :: replaceAllAux [] rep fuel cs
    | p0 :: prest =>
      if (p0 :: prest).isPrefixOf (c :: cs) then
        rep ++ replaceAllAux (p0 :: prest) rep fuel (cs.drop prest.length)
      else
        c :: replaceAllAux (p0 :: prest) rep fuel cs

/-- Python `s.replace(old, new)` on `String`s. -/
def pyreplace (s old new : String) : String :=
  ⟨replaceAllAux old.data new.data (s.data.length + 1) s.data⟩

/-- `re.sub(r'\bNAME\b', rep, s)` for an identifier `NAME` (all word
characters, as every substituted symbol name here is): replace each occurrence
of `NAME` whose neighbours on both sides are not word characters.  Scanning
resumes after the replaced occurrence; `prev` is the character of the original
string just before the current position. -/
def wbReplaceAux (n0 : Char) (nrest rep : List Char) :
    Nat → Option Char → List Char → List Char
  | _, _, [] => []
  | 0, _, cs => cs
  | fuel + 1, prev, c :: cs =>
    if (n0 :: nrest).isPrefixOf (c :: cs)
        && (match prev with | none => true | some p => !isWordChar p)
        && (match cs.drop nrest.length with | [] => true | d :: _ => !isWordChar d) then
      rep ++ wbReplaceAux n0 nrest rep fuel ((n0 :: nrest).getLast?) (cs.drop nrest.length)
    else
      c :: wbReplaceAux n0 nrest rep fuel (some c) cs

/-- Word-boundary replacement on `String`s; an empty name cannot arise from
the identifier keys used by the program and is left unmodelled (identity). -/
def wbReplace (name rep s : String) : String :=
  match name.data with
  | [] => s
  | n0 :: nrest => ⟨wbReplaceAux n0 nrest rep.data (s.data.length + 1) none s.data⟩

/-- A Python value occurring in the analyzer's tables and expressions:
an int or a bool. -/
inductive PyVal : Type
  | int : Int → PyVal
  | bool : Bool → PyVal
deriving DecidableEq, Repr

/-- Python `str(v)`. -/
def pyStrVal : PyVal → String
  | .int n => toString n
  | .bool b => if b then "True" else "False"

/-- Python truthiness `bool(v)`. -/
def pyTruthy : PyVal → Bool
  | .int n => decide (n ≠ 0)
  | .bool b => b

/-- Python `int(v)` for the values in the fragment. -/
def pyIntOf : PyVal → Int
  | .int n => n
  | .bool b => if b then 1 else 0

/-- Decimal digit run to a number. -/
def natOfDigits (cs : List Char) : Nat :=
  cs.foldl (fun a c => a * 10 + (c.toNat - '0'.toNat)) 0

/-! ## The Python `eval` fragment

`_evaluate_preprocessor_expression` calls `eval(expr, {"__builtins__": {}}, {})`
and `_evaluate_range` calls `eval(part, {"__builtins__": None}, safe_dict)`,
both under `try/except`.  The following lexer, parser and evaluator give the
semantics of CPython `eval` on the closed expression fragment these call sites
exercise: decimal integer literals (with Python's underscore and leading-zero
rules), `True`/`False`, identifiers (which raise `NameError`, since the
supplied globals and locals resolve no plain name to a value the fragment can
use), `or`/`and` with Python's value-returning short-circuit semantics, `+`,
binary and unary `-`, `*`, and parentheses.  A string outside the fragment is
modelled as an evaluation failure (`none`); on the fragment the verdicts agree
with CPython. -/

/-- Tokens of the fragment. -/
inductive Tok : Type
  | intLit : Nat → Tok
  | boolLit : Bool → Tok
  | ident : String → Tok
  | andK | orK | plusS | minusS | starS | lparS | rparS
deriving DecidableEq, Repr

/-- A digit-and-underscore run is a valid Python decimal literal iff it does
not begin or end with `_`, has no `__`, and has no leading zero unless every
digit is zero (`000` and `0_0` are legal, `05` is not). -/
def validDecimalRun (cs : List Char) : Bool :=
  decide (cs ≠ []) && (match cs with | '_' :: _ => false | _ => true)
    && (match cs.getLast? with | some '_' => false | _ => true)
    && !((cs.zip cs.tail).any (fun p => p.1 = '_' && p.2 = '_'))
    && ((cs.filter Char.isDigit).all (fun c => c = '0')
        || (match cs with | c :: _ => c ≠ '0' | [] => true))

/-- Lexer for the fragment.  Each recursive call consumes at least one
character, so fuel `length + 1` suffices. -/
def lexPy : Nat → List Char → Option (List Tok)
  | _, [] => some []
  | 0, _ => none
  | fuel + 1, c :: cs =>
    if isPySpace c then lexPy fuel cs
    else if c.isDigit then
      let run := c :: cs.takeWhile (fun d => d.isDigit || d = '_')
      let rest := cs.dropWhile (fun d => d.isDigit || d = '_')
      if validDecimalRun run then
        match rest with
        | d :: _ =>
          if isWordChar d then none
          else (lexPy fuel rest).map (Tok.intLit (natOfDigits (run.filter Char.isDigit)) :: ·)
        | [] => some [Tok.intLit (natOfDigits (run.filter Char.isDigit))]
      else none
    else if c.isAlpha || c = '_' then
      let run := c :: cs.takeWhile isWordChar
      let rest := cs.dropWhile isWordChar
      let tok :=
        if (⟨run⟩ : String) = "True" then Tok.boolLit true
        else if (⟨run⟩ : String) = "False" then Tok.boolLit false
        else if (⟨run⟩ : String) = "and" then Tok.andK
        else if (⟨run⟩ : String) = "or" then Tok.orK
        else Tok.ident ⟨run⟩
      (lexPy fuel rest).map (tok :: ·)
    else if c = '+' then (lexPy fuel cs).map (Tok.plusS :: ·)
    else if c = '-' then (lexPy fuel cs).map (Tok.minusS :: ·)
    else if c = '*' then (lexPy fuel cs).map (Tok.starS :: ·)
    else if c = '(' then (lexPy fuel cs).map (Tok.lparS :: ·)
    else if c = ')' then (lexPy fuel cs).map (Tok.rparS :: ·)
    else none

/-- Abstract syntax of the fragment. -/
inductive PyExpr : Type
  | lit : PyVal → PyExpr
  | pyname : String → PyExpr
  | orE : PyExpr → PyExpr → PyExpr
  | andE : PyExpr → PyExpr → PyExpr
  | addE : PyExpr → PyExpr → PyExpr
  | subE : PyExpr → PyExpr → PyExpr
  | mulE : PyExpr → PyExpr → PyExpr
  | negE : PyExpr → PyExpr
deriving DecidableEq, Repr

/-- Recursive-descent parser for the fragment, one function over a level
index to keep the recursion structural in the fuel.  Levels: 0 `or`-chain,
1 `and`-chain, 2 additive chain, 3 multiplicative chain, 4 unary, 5 atom.
`acc` holds the left operand while a chain at that level is extended.
Python's precedence (`or` < `and` < `+`/`-` < `*` < unary `-`) and left
associativity are respected. -/
def parseE : Nat → Nat → Option PyExpr → List Tok → Option (PyExpr × List Tok)
  | 0, _, _, _ => none
  | fuel + 1, 0, none, toks =>
    (parseE fuel 1 none toks).bind fun (a, r) => parseE fuel 0 (some a) r
  | fuel + 1, 0, some a, Tok.orK :: r =>
    (parseE fuel 1 none r).bind fun (b, r') => parseE fuel 0 (some (.orE a b)) r'
  | _ + 1, 0, some a, toks => some (a, toks)
  | fuel + 1, 1, none, toks =>
    (parseE fuel 2 none toks).bind fun (a, r) => parseE fuel 1 (some a) r
  | fuel + 1, 1, some a, Tok.andK :: r =>
    (parseE fuel 2 none r).bind fun (b, r') => parseE fuel 1 (some (.andE a b)) r'
  | _ + 1, 1, some a, toks => some (a, toks)
  | fuel + 1, 2, none, toks =>
    (parseE fuel 3 none toks).bind fun (a, r) => parseE fuel 2 (some a) r
  | fuel + 1, 2, some a, Tok.plusS :: r =>
    (parseE fuel 3 none r).bind fun (b, r') => parseE fuel 2 (some (.addE a b)) r'
  | fuel + 1, 2, some a, Tok.minusS :: r =>
    (parseE fuel 3 none r).bind fun (b, r') => parseE fuel 2 (some (.subE a b)) r'
  | _ + 1, 2, some a, toks => some (a, toks)
  | fuel + 1, 3, none, toks =>
    (parseE fuel 4 none toks).bind fun (a, r) => parseE fuel 3 (some a) r
  | fuel + 1, 3, some a, Tok.starS :: r =>
    (parseE fuel 4 none r).bind fun (b, r') => parseE fuel 3 (some (.mulE a b)) r'
  | _ + 1, 3, some a, toks => some (a, toks)
  | fuel + 1, 4, none, Tok.minusS :: r =>
    (parseE fuel 4 none r).map fun (e, r') => (.negE e, r')
  | fuel + 1, 4, none, toks => parseE fuel 5 none toks
  | _ + 1, 4, some a, toks => some (a, toks)
  | _ + 1, 5, none, Tok.intLit n :: r => some (.lit (.int n), r)
  | _ + 1, 5, none, Tok.boolLit b :: r => some (.lit (.bool b), r)
  | _ + 1, 5, none, Tok.ident s :: r => some (.pyname s, r)
  | fuel + 1, 5, none, Tok.lparS :: r =>
    (parseE fuel 0 none r).bind fun (e, r') =>
      match r' with
      | Tok.rparS :: r'' => some (e, r'')
      | _ => none
  | _ + 1, 5, none, _ => none
  | _ + 1, 5, some a, toks => some (a, toks)
  | _ + 1, _, _, _ => none

/-- Evaluation of the fragment.  Plain names raise `NameError` (`none`):
the call sites pass globals/locals in which no plain name resolves to a value
the fragment could go on to use.  `or`/`and` return an operand value and
short-circuit, so a name in an unevaluated operand raises nothing; arithmetic
coerces bools to ints, as in Python. -/
def evalPyExpr : PyExpr → Option PyVal
  | .lit v => some v
  | .pyname _ => none
  | .orE a b => (evalPyExpr a).bind fun va => if pyTruthy va then some va else evalPyExpr b
  | .andE a b => (evalPyExpr a).bind fun va => if pyTruthy va then evalPyExpr b else some va
  | .addE a b =>
    (evalPyExpr a).bind fun va => (evalPyExpr b).map fun vb => .int (pyIntOf va + pyIntOf vb)
  | .subE a b =>
    (evalPyExpr a).bind fun va => (evalPyExpr b).map fun vb => .int (pyIntOf va - pyIntOf vb)
  | .mulE a b =>
    (evalPyExpr a).bind fun va => (evalPyExpr b).map fun vb => .int (pyIntOf va * pyIntOf vb)
  | .negE a => (evalPyExpr a).map fun va => .int (-(pyIntOf va))

/-- `eval(s, ...)` on the fragment: lex, parse a complete expression, then
evaluate.  `none` models the raised exception. -/
def pyEval (s : String) : Option PyVal :=
  (lexPy (s.data.length + 1) s.data).bind fun toks =>
    (parseE (10 * toks.length + 10) 0 none toks).bind fun (e, rest) =>
      if rest = [] then evalPyExpr e else none

/-! ## Conditional Compilation Engine (`PreprocessorState`, `PreprocessorParser`) -/

/-- `PreprocessorState`: the symbol table from the configuration's `defines`
mapping and the stack of activation flags (top of stack at the end of the
list, as Python `list.append`/`list.pop` act on the end of the list).
A fresh parser starts with `active_blocks = [True]`. -/
structure PreprocessorState : Type where
  defines : List (String × Bool)
  active_blocks : List Bool
deriving DecidableEq, Repr

/-- `PreprocessorState.is_active`: `all(self.active_blocks)`. -/
def is_active (st : PreprocessorState) : Bool := st.active_blocks.all id

/-- `re.sub(r'defined\((\w+)\)', ...)`: each occurrence of `defined(`, a
non-empty word-character run, `)` is replaced by `str(name in defines)`.
Each recursive call consumes at least one character. -/
def replaceDefinedAux (defines : List (String × Bool)) : Nat → List Char → List Char
  | _, [] => []
  | 0, cs => cs
  | fuel + 1, c :: cs =>
    if "defined(".data.isPrefixOf (c :: cs) then
      match ((c :: cs).drop 8).dropWhile isWordChar with
      | ')' :: rest =>
        match ((c :: cs).drop 8).takeWhile isWordChar with
        | [] => c :: replaceDefinedAux defines fuel cs
        | w0 :: wrest =>
          (if dmem defines ⟨w0 :: wrest⟩ then "True".data else "False".data) ++
            replaceDefinedAux defines fuel rest
      | _ => c :: replaceDefinedAux defines fuel cs
    else c :: replaceDefinedAux defines fuel cs

/-- `PreprocessorParser._evaluate_preprocessor_expression`, the string
rewriting pipeline before `eval`: `defined(...)` substitution, `&&`/`||`
normalization, then word-boundary substitution of every define in table
order.  This is everything the code does to EXPR before handing it to
`eval(expr, {"__builtins__": {}}, {})`. -/
def transform_preprocessor_expression (defines : List (String × Bool)) (expr : String) : String :=
  let e1 : String := ⟨replaceDefinedAux defines (expr.data.length + 1) expr.data⟩
  let e2 := pyreplace (pyreplace e1 "&&" " and ") "||" " or "
  defines.foldl (fun acc p => wbReplace p.1 (pyStrVal (.bool p.2)) acc) e2

/-- `PreprocessorParser._evaluate_preprocessor_expression`: rewrite, then
`bool(eval(...))` under `try/except`.  Returns the boolean verdict and a flag
recording whether the failure diagnostic (`Warning: Could not evaluate ...`)
was printed; no exception escapes the method. -/
def evaluate_preprocessor_expression (defines : List (String × Bool)) (expr : String) :
    Bool × Bool :=
  match pyEval (transform_preprocessor_expression defines expr) with
  | some v => (pyTruthy v, false)
  | none => (false, true)

/-- `PreprocessorParser._handle_preprocessor_directive` without its
`return i + 1` (accounted for by the caller): the directive's effect on the
state.  The `processed_lines` parameter of the Python method is never touched
by it. -/
def handle_preprocessor_directive (st : PreprocessorState) (rawLine : String) :
    PreprocessorState :=
  let line := pystrip rawLine
  if pystarts line "#ifdef" then
    let define := lastToken line
    { st with active_blocks := st.active_blocks ++ [dgetD st.defines define false] }
  else if pystarts line "#ifndef" then
    let define := lastToken line
    { st with active_blocks := st.active_blocks ++ [!(dgetD st.defines define false)] }
  else if pystarts line "#if" then
    let expr := pystrip (pydrop line 3)
    { st with active_blocks :=
        st.active_blocks ++ [(evaluate_preprocessor_expression st.defines expr).1] }
  else if pystarts line "#elif" then
    match st.active_blocks with
    | [] => st
    | _ :: _ =>
      let expr := pystrip (pydrop line 5)
      { st with active_blocks :=
          st.active_blocks.dropLast ++ [(evaluate_preprocessor_expression st.defines expr).1] }
  else if pystarts line "#else" then
    match st.active_blocks.getLast? with
    | none => st
    | some current =>
      { st with active_blocks := st.active_blocks.dropLast ++ [!current] }
  else if pystarts line "#endif" then
    { st with active_blocks := st.active_blocks.dropLast }
  else st

/-- The loop body of `PreprocessorParser.parse_file`.  The handler returns
`i + 1` and the loop unconditionally adds another `1`, so a directive line
consumes the line after it as well; a non-directive line is kept (verbatim,
unstripped) exactly when the whole stack is true. -/
def processLines (st : PreprocessorState) : List String → PreprocessorState × List String
  | [] => (st, [])
  | l :: rest =>
    if pystarts (pystrip l) "#" then
      match rest with
      | [] => (handle_preprocessor_directive st l, [])
      | _ :: rest' => processLines (handle_preprocessor_directive st l) rest'
    else if is_active st then
      let r := processLines st rest
      (r.1, l :: r.2)
    else
      processLines st rest

/-- `PreprocessorParser.parse_file` on the file's text: split on newlines,
run the directive loop, join the retained lines.  The state (in particular
`active_blocks`) carries over from one call to the next, because the parser
object is built once and is long-lived. -/
def parse_file (st : PreprocessorState) (content : String) : PreprocessorState × String :=
  let r := processLines st (pysplit content '\n')
  (r.1, joinNl r.2)

/-- A directive line of the elif/else/endif kind (the ones whose handler
branch begins by inspecting the stack). -/
def eoeDirective (l : String) : Bool :=
  pystarts (pystrip l) "#elif" || pystarts (pystrip l) "#else" || pystarts (pystrip l) "#endif"

/-! ## Regex scanners

Each `re.finditer` / `re.search` of the source is embedded as a dedicated
matcher: `Option (captures × rest)` at a position, scanned left to right,
non-overlapping, resuming after each match — `re.finditer`'s strategy.  The
patterns only combine case-insensitive literals, `\s*`/`\s+`, `\w+`, `[^)]+`,
`[^!]*` and one non-greedy `.*?`; these character classes are disjoint from
the literals that follow them, so maximal-run matching is exactly the regex
semantics (no further backtracking arises), except for `.*?`, whose
incremental retry loop is spelled out in `derivedTail`.  Every matcher
consumes at least one character, so scanning fuel `length + 1` suffices. -/

/-- Left-to-right non-overlapping scan with a matcher (`re.finditer`). -/
def scanAll {α : Type} (m : List Char → Option (α × List Char)) : Nat → List Char → List α
  | 0, _ => []
  | _, [] => []
  | fuel + 1, c :: cs =>
    match m (c :: cs) with
    | some (a, rest) => a :: scanAll m fuel rest
    | none => scanAll m fuel cs

/-- `re.search`: the first match only. -/
def searchFirst {α : Type} (m : List Char → Option (α × List Char)) (cs : List Char) :
    Option α :=
  (scanAll m (cs.length + 1) cs).head?

/-- Consume a literal keyword case-insensitively (`(?i)`); `kw` is given in
lowercase. -/
def ciPrefix : List Char → List Char → Option (List Char)
  | [], s => some s
  | _ :: _, [] => none
  | k :: ks, c :: cs => if c.toLower = k then ciPrefix ks cs else none

/-- `\s+`. -/
def spaces1 (s : List Char) : Option (List Char) :=
  match s.takeWhile isPySpace with
  | [] => none
  | _ => some (s.dropWhile isPySpace)

/-- `\s*`. -/
def spaces0 (s : List Char) : List Char := s.dropWhile isPySpace

/-- `(\w+)`. -/
def word1 (s : List Char) : Option (List Char × List Char) :=
  match s.takeWhile isWordChar with
  | [] => none
  | w => some (w, s.dropWhile isWordChar)

/-- A literal character. -/
def lit (c : Char) : List Char → Option (List Char)
  | [] => none
  | d :: rest => if d = c then some rest else none

/-- `(?i)kw\s+(\w+)` at a position (`module`, `program`, `use` scans). -/
def kwIdentAt (kw : List Char) (s : List Char) : Option (String × List Char) :=
  (ciPrefix kw s).bind fun r1 =>
    (spaces1 r1).bind fun r2 =>
      (word1 r2).map fun wr => (⟨wr.1⟩, wr.2)

/-- All captures of `(?i)kw\s+(\w+)` in a string. -/
def scanKwIdent (kw : String) (content : String) : List String :=
  scanAll (kwIdentAt kw.data) (content.data.length + 1) content.data

/-- `(?i)use\s+iso_fortran_env\s*,\s*only\s*:([^!]*)` at a position. -/
def useIsoAt (s : List Char) : Option (String × List Char) :=
  (ciPrefix "use".data s).bind fun r1 =>
    (spaces1 r1).bind fun r2 =>
      (ciPrefix "iso_fortran_env".data r2).bind fun r3 =>
        (lit ',' (spaces0 r3)).bind fun r4 =>
          (ciPrefix "only".data (spaces0 r4)).bind fun r5 =>
            (lit ':' (spaces0 r5)).map fun r6 =>
              (⟨r6.takeWhile (fun c => c ≠ '!')⟩, r6.dropWhile (fun c => c ≠ '!'))

/-- `(\w+)\s*=>\s*(\w+)` at a position (kind-alias pairs). -/
def mappingAt (s : List Char) : Option ((String × String) × List Char) :=
  (word1 s).bind fun w1 =>
    (lit '=' (spaces0 w1.2)).bind fun r2 =>
      (lit '>' r2).bind fun r3 =>
        (word1 (spaces0 r3)).map fun w2 => ((⟨w1.1⟩, ⟨w2.1⟩), w2.2)

/-- `(?i)real\s*\((\w+)\)\s*,\s*dimension\s*\(([^)]+)\)\s*::\s*(\w+)`. -/
def staticAt (s : List Char) : Option ((String × String × String) × List Char) :=
  (ciPrefix "real".data s).bind fun r1 =>
    (lit '(' (spaces0 r1)).bind fun r2 =>
      (word1 r2).bind fun kind =>
        (lit ')' kind.2).bind fun r3 =>
          (lit ',' (spaces0 r3)).bind fun r4 =>
            (ciPrefix "dimension".data (spaces0 r4)).bind fun r5 =>
              (lit '(' (spaces0 r5)).bind fun r6 =>
                match r6.takeWhile (fun c => c ≠ ')') with
                | [] => none
                | dims =>
                  (lit ')' (r6.dropWhile (fun c => c ≠ ')'))).bind fun r7 =>
                    (lit ':' (spaces0 r7)).bind fun r8 =>
                      (lit ':' r8).bind fun r9 =>
                        (word1 (spaces0 r9)).map fun nm =>
                          ((⟨kind.1⟩, ⟨dims⟩, ⟨nm.1⟩), nm.2)

/-- `(?i)real\s*\((\w+)\)\s*,\s*allocatable\s*::\s*(\w+)(?:\([,:]*\))?`:
the optional tail is consumed when present (affecting where scanning
resumes) but captures nothing. -/
def allocAt (s : List Char) : Option ((String × String) × List Char) :=
  (ciPrefix "real".data s).bind fun r1 =>
    (lit '(' (spaces0 r1)).bind fun r2 =>
      (word1 r2).bind fun kind =>
        (lit ')' kind.2).bind fun r3 =>
          (lit ',' (spaces0 r3)).bind fun r4 =>
            (ciPrefix "allocatable".data (spaces0 r4)).bind fun r5 =>
              (lit ':' (spaces0 r5)).bind fun r6 =>
                (lit ':' r6).bind fun r7 =>
                  (word1 (spaces0 r7)).map fun nm =>
                    let rest :=
                      match nm.2 with
                      | '(' :: r8 =>
                        match r8.dropWhile (fun c => c = ',' || c = ':') with
                        | ')' :: r9 => r9
                        | _ => nm.2
                      | _ => nm.2
                    ((⟨kind.1⟩, ⟨nm.1⟩), rest)

/-- The `.*?::\s*(\w+)` tail of the derived-type pattern: try `::` at the
current position; on failure let `.*?` consume one more (non-newline)
character and retry — the regex engine's lazy-quantifier loop. -/
def derivedTail : Nat → List Char → Option (String × List Char)
  | 0, _ => none
  | _, [] => none
  | fuel + 1, c :: cs =>
    match (if c = ':' then (match cs with | ':' :: r => some r | _ => none) else none) with
    | some r =>
      let r2 := r.dropWhile isPySpace
      match r2.takeWhile isWordChar with
      | [] => if c = '\n' then none else derivedTail fuel cs
      | w => some (⟨w⟩, r2.dropWhile isWordChar)
    | none => if c = '\n' then none else derivedTail fuel cs

/-- `(?i)type\s*\((\w+)\).*?::\s*(\w+)`: captures the type tag (group 1) and
the declared name (group 2). -/
def derivedAt (s : List Char) : Option ((String × String) × List Char) :=
  (ciPrefix "type".data s).bind fun r1 =>
    (lit '(' (spaces0 r1)).bind fun r2 =>
      (word1 r2).bind fun t =>
        (lit ')' t.2).bind fun r3 =>
          (derivedTail (r3.length + 1) r3).map fun vr => ((⟨t.1⟩, vr.1), vr.2)

/-- `(?i)integer\s*,\s*parameter\s*::\s*(\w+)\s*=\s*(\w+)`
(`_collect_parameters`). -/
def intParamAt (s : List Char) : Option ((String × String) × List Char) :=
  (ciPrefix "integer".data s).bind fun r1 =>
    (lit ',' (spaces0 r1)).bind fun r2 =>
      (ciPrefix "parameter".data (spaces0 r2)).bind fun r3 =>
        (lit ':' (spaces0 r3)).bind fun r4 =>
          (lit ':' r4).bind fun r5 =>
            (word1 (spaces0 r5)).bind fun nm =>
              (lit '=' (spaces0 nm.2)).bind fun r6 =>
                (word1 (spaces0 r6)).map fun v => ((⟨nm.1⟩, ⟨v.1⟩), v.2)

/-- `rf'(?i)allocate\s*\({name}\s*\(([^)]+)\)\)'`: the declared name is
interpolated into the pattern, so it is matched case-insensitively too. -/
def allocSearchAt (name : String) (s : List Char) : Option (String × List Char) :=
  (ciPrefix "allocate".data s).bind fun r1 =>
    (lit '(' (spaces0 r1)).bind fun r2 =>
      (ciPrefix (pylower name).data r2).bind fun r3 =>
        (lit '(' (spaces0 r3)).bind fun r4 =>
          match r4.takeWhile (fun c => c ≠ ')') with
          | [] => none
          | dims =>
            (lit ')' (r4.dropWhile (fun c => c ≠ ')'))).bind fun r5 =>
              (lit ')' r5).map fun r6 => ((⟨dims⟩ : String), r6)

/-! ## Memory Footprint Estimator (`EnhancedModuleAnalyzer`) -/

/-- Python `int(token)` for a `\w+` capture: digits with Python's underscore
rules; unlike integer literals, `int()` accepts leading zeros. -/
def parseIntToken (s : String) : Option Nat :=
  let cs := s.data
  if decide (cs ≠ []) && (match cs with | '_' :: _ => false | _ => true)
      && (match cs.getLast? with | some '_' => false | _ => true)
      && !((cs.zip cs.tail).any fun p => p.1 = '_' && p.2 = '_')
      && (cs.all fun c => c.isDigit || c = '_') then
    some (natOfDigits (cs.filter Char.isDigit))
  else none

/-- `EnhancedModuleAnalyzer._collect_parameters`: the preprocessor defines,
then every named integer constant of the content; a constant whose value
token is a known parameter inherits that parameter's value, otherwise the
token must parse as an int (a failure is skipped with a printed note). -/
def collect_parameters (defines : List (String × Bool)) (content : String) :
    List (String × PyVal) :=
  let params := dupdate [] (defines.map fun p => (p.1, PyVal.bool p.2))
  (scanAll intParamAt (content.data.length + 1) content.data).foldl
    (fun ps pv =>
      match dget ps pv.2 with
      | some v => dset ps pv.1 v
      | none =>
        match parseIntToken pv.2 with
        | some n => dset ps pv.1 (.int n)
        | none => ps)
    params

/-- `EnhancedModuleAnalyzer._evaluate_range`: no `:` means extent 1;
otherwise split on `:` — a split into anything but exactly two pieces raises
`ValueError` out of the method (no `try` protects the unpacking) — then
substitute every parameter by plain `str.replace`, evaluate both endpoints,
and return `end - start + 1`, or the fallback `(100, diagnostic)` when
either evaluation raises. -/
def evaluate_range (range_expr : String) (params : List (String × PyVal)) :
    Except String (Int × Bool) :=
  if !(pycontains range_expr ':') then .ok (1, false)
  else
    match (pysplit range_expr ':').map pystrip with
    | [s, e] =>
      let s1 := params.foldl (fun acc p => pyreplace acc p.1 (pyStrVal p.2)) s
      let e1 := params.foldl (fun acc p => pyreplace acc p.1 (pyStrVal p.2)) e
      match pyEval s1 with
      | none => .ok (100, true)
      | some sv =>
        match pyEval e1 with
        | none => .ok (100, true)
        | some ev => .ok (pyIntOf ev - pyIntOf sv + 1, false)
    | _ => .error "too many values to unpack"

/-- The fixed byte-width table of `_calculate_array_size`, default 8. -/
def type_sizes (t : String) : Int :=
  if t = "c_double" then 8
  else if t = "c_float" then 4
  else if t = "real64" then 8
  else if t = "real32" then 4
  else if t = "int64" then 8
  else if t = "int32" then 4
  else 8

/-- `EnhancedModuleAnalyzer._calculate_array_size`: parameters accumulated
over all processed contents so far (in processing order), extents of the
comma-separated dimensions multiplied, times the type's byte width.  A
`ValueError` from `_evaluate_range` propagates. -/
def calculate_array_size (defines : List (String × Bool))
    (processed_contents : List (String × String)) (dims_str type_str : String) :
    Except String Int :=
  let params := processed_contents.foldl
    (fun ps p => dupdate ps (collect_parameters defines p.2)) []
  let dims := (pysplit dims_str ',').map pystrip
  (dims.foldlM (fun total dim => (evaluate_range dim params).map fun r => total * r.1)
    (1 : Int)).map (fun total => total * type_sizes type_str)

deriving instance DecidableEq for Except

/-- One recorded array (`static_arrays` / `allocatable_arrays` entry). -/
structure ArrayEntry : Type where
  name : String
  type : String
  dimensions : String
  estimated_size : Int
deriving DecidableEq, Repr

/-- One recorded derived-type usage: the source stores only a name. -/
structure DerivedTypeUsage : Type where
  name : String
deriving DecidableEq, Repr

/-- The `memory_info` result of `_analyze_memory_usage`. -/
structure MemoryInfo : Type where
  static_arrays : List ArrayEntry
  allocatable_arrays : List ArrayEntry
  derived_types : List DerivedTypeUsage
deriving DecidableEq, Repr

/-- `EnhancedModuleAnalyzer._analyze_memory_usage` on one unit's effective
text: kind-alias table, then the three declaration scans in the source's
dict order (static, allocatable, derived).  An allocatable declaration with
no matching `allocate` is skipped; a derived-type match records only its
first capture group.  A `ValueError` escaping `_evaluate_range` aborts the
scan at that point and propagates.  The method's local `param_values` is
computed but never read, so it is omitted here. -/
def analyze_memory_usage (defines : List (String × Bool))
    (processed_contents : List (String × String)) (content : String) :
    Except String MemoryInfo :=
  let cs := content.data
  let kind_mappings :=
    (scanAll useIsoAt (cs.length + 1) cs).foldl
      (fun km cap =>
        (scanAll mappingAt (cap.data.length + 1) cap.data).foldl
          (fun km2 p => dset km2 p.1 p.2) km)
      []
  do
    let statics ← (scanAll staticAt (cs.length + 1) cs).foldlM
      (fun acc m => do
        let size ← calculate_array_size defines processed_contents m.2.1 m.1
        pure (acc ++ [{ name := m.2.2, type := m.1, dimensions := m.2.1,
                        estimated_size := size : ArrayEntry }]))
      ([] : List ArrayEntry)
    let allocs ← (scanAll allocAt (cs.length + 1) cs).foldlM
      (fun acc m =>
        match searchFirst (allocSearchAt m.2) cs with
        | none => pure acc
        | some dims => do
          let actual := dgetD kind_mappings m.1 m.1
          let size ← calculate_array_size defines processed_contents dims actual
          pure (acc ++ [{ name := m.2, type := "real(" ++ actual ++ ")",
                          dimensions := dims, estimated_size := size : ArrayEntry }]))
      ([] : List ArrayEntry)
    let deriveds := (scanAll derivedAt (cs.length + 1) cs).map
      fun m => ({ name := m.1 } : DerivedTypeUsage)
    pure { static_arrays := statics, allocatable_arrays := allocs,
           derived_types := deriveds }

/-- `use\s+(\w+)(?:\s*,\s*only\s*:)?` at a position (`_find_dependencies`):
the optional tail only moves the resume position. -/
def useDepAt (s : List Char) : Option (String × List Char) :=
  (ciPrefix "use".data s).bind fun r1 =>
    (spaces1 r1).bind fun r2 =>
      (word1 r2).map fun nm =>
        let rest :=
          match lit ',' (spaces0 nm.2) with
          | none => nm.2
          | some r3 =>
            match ciPrefix "only".data (spaces0 r3) with
            | none => nm.2
            | some r4 =>
              match lit ':' (spaces0 r4) with
              | none => nm.2
              | some r5 => r5
        ((⟨nm.1⟩ : String), rest)

/-- `EnhancedModuleAnalyzer._find_dependencies`: referenced names, lowered,
first occurrence kept. -/
def find_dependencies (content : String) : List String :=
  (scanAll useDepAt (content.data.length + 1) content.data).foldl
    (fun deps name =>
      if deps.contains (pylower name) then deps else deps ++ [pylower name])
    []

/-! ## Unit Catalog & Dependency Graph (`ModuleDependencyAnalyzer`) -/

/-- The mutable state of the Python `visit` closure: the `visited` guard set
(only membership is used, so a list suffices) and the ordered `needed`
output list. -/
structure VisitState : Type where
  visited : List String
  needed : List String
deriving DecidableEq, Repr

/-- `self.dependencies.get(name, set())`: the recorded reference set of a
unit, as the list the iteration enumerates. -/
def gdeps (g : List (String × List String)) (n : String) : List String :=
  dgetD g n []

/-- The dependency loop inside `visit`: `for dep in deps: visit(dep); if dep
not in needed: needed.append(dep)`, with the recursive call passed in. -/
def visitDeps (visitF : String → VisitState → VisitState) :
    List String → VisitState → VisitState
  | [], st => st
  | d :: rest, st =>
    let st1 := visitF d st
    let st2 := if d ∈ st1.needed then st1 else { st1 with needed := st1.needed ++ [d] }
    visitDeps visitF rest st2

/-- `visit(name)`: return if already visited, else mark visited and process
the dependency list.  The recursion depth is bounded by the number of
distinct names, since every recursive descent first adds an unvisited name;
the wrappers pass fuel exceeding that bound, so the fuel never runs out
(made precise by `visit_spec`). -/
def visit (g : List (String × List String)) : Nat → String → VisitState → VisitState
  | 0, _, st => st
  | fuel + 1, name, st =>
    if name ∈ st.visited then st
    else
      visitDeps (fun d st' => visit g fuel d st') (gdeps g name)
        { st with visited := name :: st.visited }

/-- Every name the traversal can ever touch: the target, the graph's keys
and every name in a dependency list. -/
def relevantNames (g : List (String × List String)) (target : String) : List String :=
  (target :: (g.map Prod.fst ++ (g.map Prod.snd).flatten)).dedup

/-- Lines 80–94 of `analyze_file`: run `visit` on the target, then append
the target itself, unconditionally, as the last element. -/
def resolveOrder (g : List (String × List String)) (target : String) : List String :=
  let st := visit g ((relevantNames g target).length + 1) target ⟨[], []⟩
  st.needed ++ [target]

/-- A source directory: file name to file text.  The analyzed directories
hold `*.F90` files addressed by base name, which is how `analyze_module`
looks them up again, so entries are base names; the fold order stands for
the (fixed within one process) order `glob` reports. -/
def fileContent (dir : List (String × String)) (fname : String) : String :=
  dgetD dir fname ""

/-- `ModuleDependencyAnalyzer.scan_files`: every `module`/`program`
declaration of every file, lowercased, last write per name winning. -/
def scan_files (dir : List (String × String)) :
    List (String × String) × List (String × String) :=
  dir.foldl
    (fun acc f =>
      ((scanKwIdent "module" f.2).foldl (fun m w => dset m (pylower w) f.1) acc.1,
       (scanKwIdent "program" f.2).foldl (fun m w => dset m (pylower w) f.1) acc.2))
    ([], [])

/-- The `use` reference set of one file (`_analyze_file_dependencies`):
a Python `set` of lowercased captures.  Only membership and iteration are
used downstream; the set is modelled as the first-occurrence list (the
traversal properties proved below hold under any iteration order, since
`resolveOrder`'s guarantees are stated for arbitrary association lists). -/
def useSet (content : String) : List String :=
  (scanKwIdent "use" content).foldl
    (fun s w => if s.contains (pylower w) then s else s ++ [pylower w]) []

/-- `ModuleDependencyAnalyzer.analyze_dependencies`: reference sets for all
modules, then all programs. -/
def analyze_dependencies (dir : List (String × String))
    (mods progs : List (String × String)) : List (String × List String) :=
  (mods ++ progs).foldl (fun deps u => dset deps u.1 (useSet (fileContent dir u.2))) []

/-- `ModuleDependencyAnalyzer.analyze_file`: scan, build dependencies, find
which unit the file defines (modules first, insertion order), and resolve;
an unknown file yields the empty order. -/
def analyze_file (dir : List (String × String)) (filename : String) : List String :=
  let mp := scan_files dir
  let deps := analyze_dependencies dir mp.1 mp.2
  let target? :=
    match mp.1.find? (fun p => p.2 == filename) with
    | some p => some p.1
    | none => (mp.2.find? (fun p => p.2 == filename)).map Prod.fst
  match target? with
  | none => []
  | some t => resolveOrder deps t

/-- Reachability along recorded dependency edges, in one or more steps. -/
inductive Reaches (g : List (String × List String)) : String → String → Prop
  | single {a b : String} : b ∈ gdeps g a → Reaches g a b
  | head {a b c : String} : b ∈ gdeps g a → Reaches g b c → Reaches g a c

/-- An acyclic dependency graph: no name reaches itself. -/
def Acyclic (g : List (String × List String)) : Prop := ∀ x, ¬ Reaches g x x

/-- The invariant of the traversal relative to the in-progress path `P`:
the visited set is exactly the path plus the emitted names, and every
emitted name's dependencies have all been visited. -/
def VisitInv (g : List (String × List String)) (st : VisitState) (P : List String) : Prop :=
  (∀ x, x ∈ st.visited ↔ (x ∈ P ∨ x ∈ st.needed)) ∧
  (∀ v ∈ st.needed, ∀ d ∈ gdeps g v, d ∈ st.visited)

/-- How many of the relevant names are still unvisited (the fuel measure). -/
def unvisCount (U visited : List String) : Nat :=
  (U.filter (fun x => !decide (x ∈ visited))).length

/-- What one `visit(name)` call guarantees. -/
structure VisitPost (g : List (String × List String)) (name : String)
    (st st' : VisitState) (P : List String) : Prop where
  inv : VisitInv g st' (name :: P)
  vmono : ∀ x ∈ st.visited, x ∈ st'.visited
  vname : name ∈ st'.visited
  napp : ∃ Δ, st'.needed = st.needed ++ Δ
  nnodup : st.needed.Nodup → st'.needed.Nodup
  nfrom : ∀ d ∈ st'.needed, d ∈ st.needed ∨ Reaches g name d
  ncomplete : ∀ x, Reaches g name x → x ∈ st'.needed ∨ x ∈ name :: P
  gvisited : ∀ d ∈ gdeps g name, d ∈ st'.visited

/-- What the dependency loop guarantees, `name` being the node whose
dependency list (suffix) `ds` is being processed. -/
structure VisitListPost (g : List (String × List String)) (name : String)
    (ds : List String) (st st' : VisitState) (P : List String) : Prop where
  inv : VisitInv g st' (name :: P)
  vmono : ∀ x ∈ st.visited, x ∈ st'.visited
  napp : ∃ Δ, st'.needed = st.needed ++ Δ
  nnodup : st.needed.Nodup → st'.needed.Nodup
  nfrom : ∀ d ∈ st'.needed, d ∈ st.needed ∨ Reaches g name d
  dsneeded : ∀ d ∈ ds, d ∈ st'.needed
  dscomplete : ∀ d ∈ ds, ∀ x, Reaches g d x → x ∈ st'.needed ∨ x ∈ name :: P

/-! ## Analysis Orchestrator (`EnhancedModuleAnalyzer.analyze_module`) -/

/-- One unit's `AnalysisResult` payload. -/
structure UnitResult : Type where
  name : String
  file_path : String
  memory_usage : MemoryInfo
  dependencies : List String
deriving DecidableEq, Repr

/-- The per-unit loop of `analyze_module`: a unit with no located file is
skipped; otherwise its file is conditionally compiled (threading the
long-lived preprocessor stack), the processed content is recorded before the
memory analysis runs, and the result is keyed by unit name and tagged
`module` or `program`.  An exception from the memory analysis aborts the
loop, leaving the preprocessor stack as the last parse left it. -/
def analyzeUnits (defines : List (String × Bool)) (dir : List (String × String))
    (mods progs : List (String × String)) :
    List String → List Bool → List (String × String) →
    List (String × String × UnitResult) →
    (List Bool) × Except String (List (String × String × UnitResult))
  | [], stack, _, results => (stack, .ok results)
  | unit :: rest, stack, pcs, results =>
    match (match dget mods unit with
           | some f => some f
           | none => dget progs unit) with
    | none => analyzeUnits defines dir mods progs rest stack pcs results
    | some ufile =>
      let pr := parse_file ⟨defines, stack⟩ (fileContent dir ufile)
      let pcs' := dset pcs unit pr.2
      match analyze_memory_usage defines pcs' pr.2 with
      | .error e => (pr.1.active_blocks, .error e)
      | .ok mem =>
        let res : UnitResult :=
          { name := unit, file_path := ufile, memory_usage := mem,
            dependencies := find_dependencies pr.2 }
        let tag := if dmem mods unit then "module" else "program"
        analyzeUnits defines dir mods progs rest pr.1.active_blocks pcs'
          (dset results unit (tag, res))

/-- `EnhancedModuleAnalyzer.analyze_module`: resolve the dependency order,
reset `processed_contents`, process every unit in order.  Besides the
directory and target, the computation depends on the preprocessor state the
analyzer object carries between calls: the symbol table (never mutated) and
the activation stack (mutated by every `parse_file`); the new stack is
returned alongside the results. -/
def analyze_module (defines : List (String × Bool)) (stack : List Bool)
    (dir : List (String × String)) (filename : String) :
    (List Bool) × Except String (List (String × String × UnitResult)) :=
  let unit_order := analyze_file dir filename
  let mp := scan_files dir
  analyzeUnits defines dir mp.1 mp.2 unit_order stack [] []

/-! ## Lemmas about the conditional engine -/

theorem processLines_cons_directive (st : PreprocessorState) (d x : String) (rest : List String)
    (h : pystarts (pystrip d) "#" = true) :
    processLines st (d :: x :: rest) =
      processLines (handle_preprocessor_directive st d) rest := by
  rw [processLines.eq_3, if_pos h]

theorem processLines_single_directive (st : PreprocessorState) (d : String)
    (h : pystarts (pystrip d) "#" = true) :
    processLines st [d] = (handle_preprocessor_directive st d, []) := by
  rw [processLines.eq_2, if_pos h]

theorem processLines_no_hash_aux :
    ∀ (n : Nat) (st : PreprocessorState) (ls : List String), ls.length ≤ n →
    ∀ l ∈ (processLines st ls).2, pystarts (pystrip l) "#" = false := by
  intro n
  induction n with
  | zero =>
    intro st ls hlen l hl
    match ls with
    | [] => rw [processLines.eq_1] at hl; simp at hl
    | _ :: _ => simp at hlen
  | succ n ih =>
    intro st ls hlen l hl
    match ls with
    | [] => rw [processLines.eq_1] at hl; simp at hl
    | [l0] =>
      rw [processLines.eq_2] at hl
      by_cases h : pystarts (pystrip l0) "#" = true
      · rw [if_pos h] at hl; simp at hl
      · rw [if_neg h] at hl
        by_cases ha : is_active st = true
        · rw [if_pos ha] at hl
          simp only [processLines.eq_1] at hl
          simp at hl
          subst hl
          exact Bool.eq_false_iff.mpr h
        · rw [if_neg ha, processLines.eq_1] at hl
          simp at hl
    | l0 :: r0 :: rest' =>
      rw [processLines.eq_3] at hl
      simp only [List.length_cons] at hlen
      by_cases h : pystarts (pystrip l0) "#" = true
      · rw [if_pos h] at hl
        exact ih _ rest' (by omega) l hl
      · rw [if_neg h] at hl
        by_cases ha : is_active st = true
        · rw [if_pos ha] at hl
          simp only [List.mem_cons] at hl
          rcases hl with rfl | hl'
          · exact Bool.eq_false_iff.mpr h
          · exact ih st (r0 :: rest') (by simp only [List.length_cons]; omega) l hl'
        · rw [if_neg ha] at hl
          exact ih st (r0 :: rest') (by simp only [List.length_cons]; omega) l hl

theorem handle_eoe_empty (ds : List (String × Bool)) (l : String)
    (h : eoeDirective l = true) :
    handle_preprocessor_directive { defines := ds, active_blocks := [] } l =
      { defines := ds, active_blocks := [] } := by
  have hsplit := h
  rw [eoeDirective, Bool.or_eq_true, Bool.or_eq_true] at hsplit
  rw [handle_preprocessor_directive]
  rcases hsplit with (he | he) | he
  · rw [pystarts, List.isPrefixOf_iff_prefix] at he
    obtain ⟨t, ht⟩ := he
    have hd : (pystrip l).data = '#' :: 'e' :: 'l' :: 'i' :: 'f' :: t := by
      rw [← ht]; rfl
    simp only [pystarts, hd, List.isPrefixOf]
    simp
  · rw [pystarts, List.isPrefixOf_iff_prefix] at he
    obtain ⟨t, ht⟩ := he
    have hd : (pystrip l).data = '#' :: 'e' :: 'l' :: 's' :: 'e' :: t := by
      rw [← ht]; rfl
    simp only [pystarts, hd, List.isPrefixOf]
    simp
  · rw [pystarts, List.isPrefixOf_iff_prefix] at he
    obtain ⟨t, ht⟩ := he
    have hd : (pystrip l).data = '#' :: 'e' :: 'n' :: 'd' :: 'i' :: 'f' :: t := by
      rw [← ht]; rfl
    simp only [pystarts, hd, List.isPrefixOf]
    simp

theorem eoe_starts_hash (l : String) (h : eoeDirective l = true) :
    pystarts (pystrip l) "#" = true := by
  rw [eoeDirective, Bool.or_eq_true, Bool.or_eq_true] at h
  rcases h with (he | he) | he <;>
  · rw [pystarts, List.isPrefixOf_iff_prefix] at he ⊢
    obtain ⟨t, ht⟩ := he
    exact ⟨_, by rw [← ht]; rfl⟩

theorem processLines_eoe_empty_aux :
    ∀ (n : Nat) (ds : List (String × Bool)) (ls : List String), ls.length ≤ n →
    (∀ l ∈ ls, eoeDirective l = true) →
    processLines { defines := ds, active_blocks := [] } ls =
      ({ defines := ds, active_blocks := [] }, []) := by
  intro n
  induction n with
  | zero =>
    intro ds ls hlen _
    match ls with
    | [] => rfl
    | _ :: _ => simp at hlen
  | succ n ih =>
    intro ds ls hlen hall
    match ls with
    | [] => rfl
    | [l0] =>
      have h0 : eoeDirective l0 = true := hall l0 (List.mem_cons_self _ _)
      rw [processLines.eq_2, if_pos (eoe_starts_hash l0 h0), handle_eoe_empty ds l0 h0]
    | l0 :: r0 :: rest' =>
      have h0 : eoeDirective l0 = true := hall l0 (List.mem_cons_self _ _)
      rw [processLines.eq_3, if_pos (eoe_starts_hash l0 h0), handle_eoe_empty ds l0 h0]
      simp only [List.length_cons] at hlen
      exact ih ds rest' (by omega)
        (fun l hl => hall l (List.mem_cons_of_mem _ (List.mem_cons_of_mem _ hl)))

/-! ## Lemmas for the dependency traversal -/

theorem reaches_trans {g : List (String × List String)} {a b c : String}
    (h1 : Reaches g a b) (h2 : Reaches g b c) : Reaches g a c := by
  induction h1 with
  | single hb => exact Reaches.head hb h2
  | head hb _ ih => exact Reaches.head hb (ih h2)

theorem reaches_snoc {g : List (String × List String)} {a b c : String}
    (h : Reaches g a b) (hc : c ∈ gdeps g b) : Reaches g a c :=
  reaches_trans h (Reaches.single hc)

theorem inv_closed {g : List (String × List String)} {st : VisitState} {P : List String}
    (hinv : VisitInv g st P) (hacyc : Acyclic g) :
    ∀ a x, Reaches g a x → a ∈ st.needed → (∀ u ∈ P, Reaches g u a) → x ∈ st.needed := by
  intro a x hr
  induction hr with
  | @single a b hb =>
    intro ha hP
    have hx : b ∈ st.visited := hinv.2 a ha b hb
    rcases (hinv.1 b).mp hx with hxP | hxN
    · exact absurd (reaches_trans (hP b hxP) (Reaches.single hb)) (hacyc b)
    · exact hxN
  | @head a b c hb hr ih =>
    intro ha hP
    have hbv : b ∈ st.visited := hinv.2 a ha b hb
    rcases (hinv.1 b).mp hbv with hbP | hbN
    · exact absurd (reaches_trans (hP b hbP) (Reaches.single hb)) (hacyc b)
    · exact ih hbN (fun u hu => reaches_snoc (hP u hu) hb)

theorem unvisCount_insert (U : List String) (hU : U.Nodup) (name : String)
    (visited : List String) (hin : name ∈ U) (hnot : name ∉ visited) :
    unvisCount U (name :: visited) + 1 = unvisCount U visited := by
  induction U with
  | nil => simp at hin
  | cons u us ih =>
    rw [List.nodup_cons] at hU
    rcases List.mem_cons.mp hin with rfl | hin'
    · have h3 : us.filter (fun x => !decide (x = name) && !decide (x ∈ visited)) =
          us.filter (fun x => !decide (x ∈ visited)) := by
        apply List.filter_congr
        intro x hx
        have hxn : x ≠ name := fun h => hU.1 (h ▸ hx)
        simp [hxn]
      simp only [unvisCount, List.filter_cons]
      simp [hnot, h3]
    · have hun : u ≠ name := fun h => hU.1 (h ▸ hin')
      have hrec := ih hU.2 hin'
      simp only [unvisCount] at hrec
      have hpred : us.filter (fun x => !decide (x ∈ name :: visited)) =
          us.filter (fun x => !decide (x = name) && !decide (x ∈ visited)) := by
        apply List.filter_congr
        intro x _
        by_cases h1 : x = name <;> by_cases h2 : x ∈ visited <;>
          simp [h1, h2, List.mem_cons]
      rw [hpred] at hrec
      simp only [unvisCount, List.filter_cons]
      by_cases hb : u ∈ visited
      · simpa [hb, hun] using hrec
      · simp [hb, hun]
        omega

theorem unvisCount_mono (U : List String) {v v' : List String}
    (h : ∀ x ∈ v, x ∈ v') : unvisCount U v' ≤ unvisCount U v := by
  apply List.Sublist.length_le
  apply List.monotone_filter_right
  intro a ha
  simp only [Bool.not_eq_true', decide_eq_false_iff_not] at ha ⊢
  exact fun hav => ha (h a hav)

theorem visit_spec (g : List (String × List String)) (U : List String)
    (hU : U.Nodup) (hclosed : ∀ u x, x ∈ gdeps g u → x ∈ U) (hacyc : Acyclic g) :
    ∀ fuel : Nat,
      (∀ (name : String) (st : VisitState) (P : List String),
        name ∈ U → (∀ u ∈ P, Reaches g u name) → VisitInv g st P →
        unvisCount U st.visited < fuel →
        VisitPost g name st (visit g fuel name st) P) ∧
      (∀ (ds : List String) (name : String) (st : VisitState) (P : List String),
        (∀ d ∈ ds, d ∈ gdeps g name) →
        (∀ u ∈ P, Reaches g u name) → VisitInv g st (name :: P) →
        unvisCount U st.visited < fuel →
        VisitListPost g name ds st
          (visitDeps (fun d st' => visit g fuel d st') ds st) P) := by
  intro fuel
  induction fuel with
  | zero =>
    exact ⟨fun _ _ _ _ _ _ h => absurd h (by omega),
           fun _ _ _ _ _ _ _ h => absurd h (by omega)⟩
  | succ n ih =>
    have hA : ∀ (name : String) (st : VisitState) (P : List String),
        name ∈ U → (∀ u ∈ P, Reaches g u name) → VisitInv g st P →
        unvisCount U st.visited < n + 1 →
        VisitPost g name st (visit g (n + 1) name st) P := by
      intro name st P hnameU hP hinv hfuel
      rw [visit]
      by_cases hv : name ∈ st.visited
      · rw [if_pos hv]
        have hcase := (hinv.1 name).mp hv
        refine ⟨?_, fun x hx => hx, hv, ⟨[], (List.append_nil _).symm⟩,
                fun h => h, fun d hd => Or.inl hd, ?_, ?_⟩
        · constructor
          · intro x
            constructor
            · intro hx
              rcases (hinv.1 x).mp hx with hxP | hxN
              · exact Or.inl (List.mem_cons_of_mem _ hxP)
              · exact Or.inr hxN
            · intro hx
              rcases hx with hx | hx
              · rcases List.mem_cons.mp hx with rfl | hx'
                · exact hv
                · exact (hinv.1 x).mpr (Or.inl hx')
              · exact (hinv.1 x).mpr (Or.inr hx)
          · exact hinv.2
        · rcases hcase with hNP | hNN
          · exact absurd (hP name hNP) (hacyc name)
          · exact fun x hx => Or.inl (inv_closed hinv hacyc name x hx hNN hP)
        · rcases hcase with hNP | hNN
          · exact absurd (hP name hNP) (hacyc name)
          · exact fun d hd => hinv.2 name hNN d hd
      · rw [if_neg hv]
        have hinv1 : VisitInv g { st with visited := name :: st.visited } (name :: P) := by
          constructor
          · intro x
            constructor
            · intro hx
              rcases List.mem_cons.mp hx with rfl | hx'
              · exact Or.inl (List.mem_cons_self _ _)
              · rcases (hinv.1 x).mp hx' with hxP | hxN
                · exact Or.inl (List.mem_cons_of_mem _ hxP)
                · exact Or.inr hxN
            · intro hx
              rcases hx with hx | hx
              · rcases List.mem_cons.mp hx with rfl | hx'
                · exact List.mem_cons_self _ _
                · exact List.mem_cons_of_mem _ ((hinv.1 x).mpr (Or.inl hx'))
              · exact List.mem_cons_of_mem _ ((hinv.1 x).mpr (Or.inr hx))
          · exact fun v hvn d hd => List.mem_cons_of_mem _ (hinv.2 v hvn d hd)
        have hfuel1 : unvisCount U (name :: st.visited) < n := by
          have hins := unvisCount_insert U hU name st.visited hnameU hv
          omega
        have lpost := ih.2 (gdeps g name) name { st with visited := name :: st.visited } P
          (fun _ hd => hd) hP hinv1 hfuel1
        refine ⟨lpost.inv, ?_, ?_, lpost.napp, lpost.nnodup, lpost.nfrom, ?_, ?_⟩
        · exact fun x hx => lpost.vmono x (List.mem_cons_of_mem _ hx)
        · exact lpost.vmono name (List.mem_cons_self _ _)
        · intro x hx
          cases hx with
          | single hb => exact Or.inl (lpost.dsneeded _ hb)
          | head hb hr => exact lpost.dscomplete _ hb _ hr
        · intro d hd
          exact (lpost.inv.1 d).mpr (Or.inr (lpost.dsneeded d hd))
    refine ⟨hA, ?_⟩
    intro ds
    induction ds with
    | nil =>
      intro name st P _ _ hinv _
      rw [visitDeps]
      exact ⟨hinv, fun x hx => hx, ⟨[], (List.append_nil _).symm⟩, fun h => h,
             fun d hd => Or.inl hd, fun d hd => absurd hd (List.not_mem_nil d),
             fun d hd => absurd hd (List.not_mem_nil d)⟩
    | cons d rest ihds =>
      intro name st P hds hP hinv hfuel
      rw [visitDeps]
      have hdg : d ∈ gdeps g name := hds d (List.mem_cons_self _ _)
      have hdU : d ∈ U := hclosed name d hdg
      have hPd : ∀ u ∈ name :: P, Reaches g u d := by
        intro u hu
        rcases List.mem_cons.mp hu with rfl | hu'
        · exact Reaches.single hdg
        · exact reaches_snoc (hP u hu') hdg
      have apost := hA d st (name :: P) hdU hPd hinv hfuel
      set st1 : VisitState := visit g (n + 1) d st with hst1
      set st2 : VisitState :=
        if d ∈ st1.needed then st1 else { st1 with needed := st1.needed ++ [d] } with hst2
      have hvis2 : st2.visited = st1.visited := by
        rw [hst2]; split <;> rfl
      have hdneed2 : d ∈ st2.needed := by
        rw [hst2]; split
        · assumption
        · exact List.mem_append_right _ (List.mem_cons_self _ _)
      have hneedsup : ∀ x ∈ st1.needed, x ∈ st2.needed := by
        intro x hx
        rw [hst2]; split
        · exact hx
        · exact List.mem_append_left _ hx
      have hinv2 : VisitInv g st2 (name :: P) := by
        constructor
        · intro x
          constructor
          · intro hx
            rw [hvis2] at hx
            rcases (apost.inv.1 x).mp hx with hxP | hxN
            · rcases List.mem_cons.mp hxP with rfl | hx'
              · exact Or.inr hdneed2
              · exact Or.inl hx'
            · exact Or.inr (hneedsup x hxN)
          · intro hx
            rw [hvis2]
            rcases hx with hx | hx
            · exact (apost.inv.1 x).mpr (Or.inl (List.mem_cons_of_mem _ hx))
            · rw [hst2] at hx
              revert hx
              split
              · intro hx
                exact (apost.inv.1 x).mpr (Or.inr hx)
              · intro hx
                rcases List.mem_append.mp hx with hx' | hx'
                · exact (apost.inv.1 x).mpr (Or.inr hx')
                · rw [List.mem_singleton.mp hx']
                  exact apost.vname
        · intro v hvn e he
          rw [hvis2]
          rw [hst2] at hvn
          revert hvn
          split
          · intro hvn
            exact apost.inv.2 v hvn e he
          · intro hvn
            rcases List.mem_append.mp hvn with hv' | hv'
            · exact apost.inv.2 v hv' e he
            · rw [List.mem_singleton.mp hv'] at he
              exact apost.gvisited e he
      have happ2 : ∃ Δ, st2.needed = st.needed ++ Δ := by
        obtain ⟨Δ1, h1⟩ := apost.napp
        rw [hst2]; split
        · exact ⟨Δ1, h1⟩
        · exact ⟨Δ1 ++ [d], by rw [h1, List.append_assoc]⟩
      have hnodup2 : st.needed.Nodup → st2.needed.Nodup := by
        intro h
        rw [hst2]; split
        · exact apost.nnodup h
        · next hnd =>
          exact List.Nodup.append (apost.nnodup h) (List.nodup_singleton d)
            (fun a ha hb => hnd (List.mem_singleton.mp hb ▸ ha))
      have hfrom2 : ∀ e ∈ st2.needed, e ∈ st.needed ∨ Reaches g name e := by
        intro e he
        rw [hst2] at he
        revert he
        split
        · intro he
          rcases apost.nfrom e he with h | h
          · exact Or.inl h
          · exact Or.inr (Reaches.head hdg h)
        · intro he
          rcases List.mem_append.mp he with h | h
          · rcases apost.nfrom e h with h' | h'
            · exact Or.inl h'
            · exact Or.inr (Reaches.head hdg h')
          · rw [List.mem_singleton.mp h]
            exact Or.inr (Reaches.single hdg)
      have hfuel2 : unvisCount U st2.visited < n + 1 := by
        have hle := unvisCount_mono U apost.vmono
        rw [hvis2]
        omega
      have lpost := ihds name st2 P (fun e he => hds e (List.mem_cons_of_mem _ he))
        hP hinv2 hfuel2
      obtain ⟨Δ2, h2⟩ := lpost.napp
      refine ⟨lpost.inv, ?_, ?_, ?_, ?_, ?_, ?_⟩
      · intro x hx
        exact lpost.vmono x (hvis2 ▸ apost.vmono x hx)
      · obtain ⟨Δ1, h1⟩ := happ2
        exact ⟨Δ1 ++ Δ2, by rw [h2, h1, List.append_assoc]⟩
      · exact fun h => lpost.nnodup (hnodup2 h)
      · intro e he
        rcases lpost.nfrom e he with h | h
        · exact hfrom2 e h
        · exact Or.inr h
      · intro e he
        rcases List.mem_cons.mp he with rfl | he'
        · rw [h2]
          exact List.mem_append_left _ hdneed2
        · exact lpost.dsneeded e he'
      · intro e he x hx
        rcases List.mem_cons.mp he with rfl | he'
        · rcases apost.ncomplete x hx with h | h
          · exact Or.inl (by rw [h2]; exact List.mem_append_left _ (hneedsup x h))
          · rcases List.mem_cons.mp h with rfl | h'
            · exact Or.inl (by rw [h2]; exact List.mem_append_left _ hdneed2)
            · exact Or.inr h'
        · exact lpost.dscomplete e he' x hx

theorem gdeps_subset_relevant (g : List (String × List String)) (target : String) :
    ∀ u x, x ∈ gdeps g u → x ∈ relevantNames g target := by
  intro u x hx
  rw [relevantNames, List.mem_dedup]
  rw [gdeps, dgetD, dget] at hx
  cases hfind : g.find? (fun p => p.1 == u) with
  | none => rw [hfind] at hx; simp at hx
  | some p =>
    rw [hfind] at hx
    simp only [Option.map_some', Option.getD_some] at hx
    have hp : p ∈ g := List.mem_of_find?_eq_some hfind
    apply List.mem_cons_of_mem
    apply List.mem_append_right
    exact List.mem_flatten.mpr ⟨p.2, List.mem_map_of_mem _ hp, hx⟩

/-! ## Claim theorems: conditional engine and expression evaluator -/

/-- C1: the embeddable part of `_evaluate_preprocessor_expression`'s input
handling — `defined()` substitution, `&&`/`||` normalization, symbol
substitution — passes a hostile payload through to `eval` completely
unchanged: nothing in the method restricts EXPR to arithmetic/boolean syntax
before `eval(expr, {"__builtins__": {}}, {})` executes it.  (CPython evaluates
this payload to the list of all loaded classes, from which `os.system` is
reachable, so the claimed no-arbitrary-code-execution property fails.) -/
theorem c1_transform_passthrough :
    transform_preprocessor_expression [("DEBUG", true)]
        "().__class__.__base__.__subclasses__()" =
      "().__class__.__base__.__subclasses__()" := by decide

/-- C2 counterexample: on the claim's exact input, with a symbol table that
makes `true` evaluate true and `false` false, the effective output is not
`b` (it is empty: the parser consumes the line after every directive). -/
theorem c2_counterexample :
    (parse_file ⟨[("true", true), ("false", false)], [true]⟩
        "#if false\na\n#elif true\nb\n#elif true\nc\n#endif").2 ≠ "b" := by decide

/-- C2 amended: on the input `#if false / a / #elif true / b / #elif true /
c / #endif` the engine retains nothing at all, for every symbol table: the
directive handler returns `i + 1` and the loop increments `i` again, so each
of `a`, `b`, `c` is consumed as the line following a directive. -/
theorem c2_amended (ds : List (String × Bool)) :
    (parse_file ⟨ds, [true]⟩ "#if false\na\n#elif true\nb\n#elif true\nc\n#endif").2 = "" := by
  have hsplit : pysplit "#if false\na\n#elif true\nb\n#elif true\nc\n#endif" '\n' =
      ["#if false", "a", "#elif true", "b", "#elif true", "c", "#endif"] := by decide
  simp only [parse_file, hsplit]
  rw [processLines_cons_directive _ _ _ _ (by decide),
    processLines_cons_directive _ _ _ _ (by decide),
    processLines_cons_directive _ _ _ _ (by decide),
    processLines_single_directive _ _ (by decide)]
  rfl

/-- C3 counterexample: a single unmatched `#endif` pops the root flag — the
guard `if self.state.active_blocks` only protects an already-empty stack, not
the permanently-true root, so afterwards the stack is empty, refuting the
claim that it always stays non-empty with a true bottom element. -/
theorem c3_counterexample :
    (parse_file ⟨[], [true]⟩ "#endif").1.active_blocks = [] := by decide

/-- C3 amended: the pop guards only prevent popping an empty stack.  An
unmatched `#endif` removes the root flag (see the counterexample); once the
stack is empty, any sequence of `#elif`/`#else`/`#endif` directives leaves it
empty and emits nothing — a no-op, not an error — and the empty stack makes
every line active (the conjunction of no flags is true). -/
theorem c3_amended :
    (∀ (ds : List (String × Bool)) (lines : List String),
      (∀ l ∈ lines, eoeDirective l = true) →
      processLines ⟨ds, []⟩ lines = (⟨ds, []⟩, [])) ∧
    (∀ ds : List (String × Bool), is_active ⟨ds, []⟩ = true) :=
  ⟨fun ds lines h => processLines_eoe_empty_aux lines.length ds lines le_rfl h,
   fun _ => rfl⟩

/-- C3 amended, witness at a concrete directive sequence. -/
theorem c3_amended_witness :
    (∀ l ∈ ["#endif", "#elif FOO", "#else"], eoeDirective l = true) ∧
    processLines ⟨[("A", true)], []⟩ ["#endif", "#elif FOO", "#else"] =
      (⟨[("A", true)], []⟩, []) ∧
    is_active (⟨[("A", true)], []⟩ : PreprocessorState) = true :=
  ⟨by decide, c3_amended.1 [("A", true)] _ (by decide), c3_amended.2 [("A", true)]⟩

/-- C7 counterexample: the expression `5` evaluates to the non-boolean value
`5`, yet the directive does not evaluate to false with a diagnostic — the
code coerces the value with `bool(...)`, so the directive is true and no
diagnostic is reported, contradicting the claim's non-boolean-result case. -/
theorem c7_counterexample :
    pyEval (transform_preprocessor_expression [] "5") = some (.int 5) ∧
    evaluate_preprocessor_expression [] "5" = (true, false) := by decide

/-- C7 amended: when evaluation of the rewritten expression raises (syntax
error or unknown symbol), the directive evaluates to false, the diagnostic is
reported, and no exception escapes; an evaluation that succeeds with a
non-boolean value is not a failure — the directive takes the value's
truthiness, with no diagnostic. -/
theorem c7_amended :
    (∀ (ds : List (String × Bool)) (e : String),
      pyEval (transform_preprocessor_expression ds e) = none →
      evaluate_preprocessor_expression ds e = (false, true)) ∧
    (∀ (ds : List (String × Bool)) (e : String) (v : PyVal),
      pyEval (transform_preprocessor_expression ds e) = some v →
      evaluate_preprocessor_expression ds e = (pyTruthy v, false)) := by
  constructor
  · intro ds e h
    simp only [evaluate_preprocessor_expression, h]
  · intro ds e v h
    simp only [evaluate_preprocessor_expression, h]

/-- C7 amended, witness: a syntax-error expression (`!defined(X)` keeps its
`!`, illegal in Python) evaluates false with a diagnostic; a successfully
evaluated symbol takes its truthiness. -/
theorem c7_amended_witness :
    pyEval (transform_preprocessor_expression [] "!defined(X)") = none ∧
    evaluate_preprocessor_expression [] "!defined(X)" = (false, true) ∧
    pyEval (transform_preprocessor_expression [("DEBUG", true)] "DEBUG") =
      some (.bool true) ∧
    evaluate_preprocessor_expression [("DEBUG", true)] "DEBUG" =
      (pyTruthy (.bool true), false) :=
  ⟨by decide, c7_amended.1 [] "!defined(X)" (by decide), by decide,
   c7_amended.2 [("DEBUG", true)] "DEBUG" (.bool true) (by decide)⟩

/-- C10: a line whose stripped form begins with `#` is never appended to the
effective output — every retained line fails the `#` test — and on a `#` line
that matches none of the six recognized directives the handler leaves the
state (in particular the activation stack) unchanged. -/
theorem c10_hash_never_output :
    (∀ (st : PreprocessorState) (ls : List String) (l : String),
      l ∈ (processLines st ls).2 → pystarts (pystrip l) "#" = false) ∧
    (∀ (st : PreprocessorState) (l : String),
      pystarts (pystrip l) "#" = true →
      pystarts (pystrip l) "#ifdef" = false → pystarts (pystrip l) "#ifndef" = false →
      pystarts (pystrip l) "#if" = false → pystarts (pystrip l) "#elif" = false →
      pystarts (pystrip l) "#else" = false → pystarts (pystrip l) "#endif" = false →
      handle_preprocessor_directive st l = st) := by
  constructor
  · intro st ls l hl
    exact processLines_no_hash_aux ls.length st ls le_rfl l hl
  · intro st l _ h1 h2 h3 h4 h5 h6
    simp [handle_preprocessor_directive, h1, h2, h3, h4, h5, h6]

/-- C4 counterexample: two successive `analyze_module` runs on an unmodified
one-file directory disagree.  The file leaves an unmatched `#ifdef`, whose
pushed flag survives in the long-lived preprocessor's activation stack, so
the second run sees every line inactive: the first run records dependency
`m2`, the second records none. -/
theorem c4_counterexample :
    (analyze_module []
        (analyze_module [] [true] [("m1.F90", "module m1\nuse m2\n#ifdef X\n")] "m1.F90").1
        [("m1.F90", "module m1\nuse m2\n#ifdef X\n")] "m1.F90").2 ≠
      (analyze_module [] [true] [("m1.F90", "module m1\nuse m2\n#ifdef X\n")] "m1.F90").2 := by
  decide

/-- C4 amended: the result of `analyze_module` is a function of the
directory, the configuration and the preprocessor state the analyzer carries
across calls (symbol table and activation stack); two successive runs yield
identical results whenever the first run returns the activation stack to the
value it started with — in particular whenever every processed file leaves
the stack balanced — and can differ otherwise (see the counterexample). -/
theorem c4_amended (defines : List (String × Bool)) (stack : List Bool)
    (dir : List (String × String)) (filename : String)
    (h : (analyze_module defines stack dir filename).1 = stack) :
    analyze_module defines (analyze_module defines stack dir filename).1 dir filename =
      analyze_module defines stack dir filename := by
  rw [h]

/-- C4 amended, witness: a directory whose one file closes its conditional
block; the first run returns the stack to `[true]` and the second run's
output (stack and results) equals the first's. -/
theorem c4_amended_witness :
    (analyze_module [] [true]
        [("m1.F90", "module m1\n#ifdef X\nx\n#endif\n")] "m1.F90").1 = [true] ∧
    analyze_module []
        (analyze_module [] [true]
          [("m1.F90", "module m1\n#ifdef X\nx\n#endif\n")] "m1.F90").1
        [("m1.F90", "module m1\n#ifdef X\nx\n#endif\n")] "m1.F90" =
      analyze_module [] [true]
        [("m1.F90", "module m1\n#ifdef X\nx\n#endif\n")] "m1.F90" :=
  ⟨by decide,
   c4_amended [] [true] [("m1.F90", "module m1\n#ifdef X\nx\n#endif\n")] "m1.F90" (by decide)⟩

/-- C5: for every acyclic dependency graph and every target, the order
returned by the traversal of `analyze_file` places each unit the target
transitively depends on strictly before the target (every such unit is in
the order with the target last and no duplicates, so it is in the
`dropLast`), contains no name twice, and ends with the target. -/
theorem c5_resolve_order (g : List (String × List String)) (target : String)
    (hacyc : Acyclic g) :
    (∀ x, Reaches g target x → x ∈ (resolveOrder g target).dropLast) ∧
    (resolveOrder g target).Nodup ∧
    (resolveOrder g target).getLast? = some target := by
  have hU : (relevantNames g target).Nodup := List.nodup_dedup _
  have htU : target ∈ relevantNames g target :=
    List.mem_dedup.mpr (List.mem_cons_self _ _)
  have hinv0 : VisitInv g ⟨[], []⟩ [] :=
    ⟨fun x => by simp, fun v hv => absurd hv (List.not_mem_nil v)⟩
  have hfuel : unvisCount (relevantNames g target) (⟨[], []⟩ : VisitState).visited <
      (relevantNames g target).length + 1 := by
    have hle := List.length_filter_le
      (fun x => !decide (x ∈ ([] : List String))) (relevantNames g target)
    simp only [unvisCount]
    omega
  have apost := (visit_spec g (relevantNames g target) hU
      (gdeps_subset_relevant g target) hacyc ((relevantNames g target).length + 1)).1
      target ⟨[], []⟩ [] htU (fun u hu => absurd hu (List.not_mem_nil u)) hinv0 hfuel
  have hres : resolveOrder g target =
      (visit g ((relevantNames g target).length + 1) target ⟨[], []⟩).needed ++ [target] := rfl
  have htni : target ∉
      (visit g ((relevantNames g target).length + 1) target ⟨[], []⟩).needed := by
    intro hmem
    rcases apost.nfrom target hmem with h | h
    · exact absurd h (List.not_mem_nil _)
    · exact absurd h (hacyc target)
  refine ⟨?_, ?_, ?_⟩
  · intro x hx
    rw [hres, List.dropLast_concat]
    rcases apost.ncomplete x hx with h | h
    · exact h
    · rcases List.mem_cons.mp h with rfl | h'
      · exact absurd hx (hacyc x)
      · exact absurd h' (List.not_mem_nil x)
  · rw [hres]
    exact List.Nodup.append (apost.nnodup List.nodup_nil) (List.nodup_singleton _)
      (fun a ha hb => htni (List.mem_singleton.mp hb ▸ ha))
  · rw [hres]
    exact List.getLast?_concat _

theorem gdeps_pair_ne (a : String) (ha : a ≠ "a") : gdeps [("a", ["b"])] a = [] := by
  rw [gdeps, dgetD, dget, List.find?_cons_of_neg]
  · rfl
  · simp only [beq_iff_eq]
    exact fun h => ha h.symm

theorem acyclic_pair : Acyclic [("a", ["b"])] := by
  have hstep : ∀ x y : String, Reaches [("a", ["b"])] x y → x = "a" ∧ y = "b" := by
    intro x y h
    induction h with
    | @single a b hb =>
      by_cases ha : a = "a"
      · subst ha
        have hg : gdeps [("a", ["b"])] "a" = ["b"] := rfl
        rw [hg] at hb
        exact ⟨rfl, List.mem_singleton.mp hb⟩
      · rw [gdeps_pair_ne a ha] at hb
        exact absurd hb (List.not_mem_nil b)
    | @head a b c hb _ ih =>
      exfalso
      rcases ih with ⟨rfl, _⟩
      by_cases ha : a = "a"
      · subst ha
        have hg : gdeps [("a", ["b"])] "a" = ["b"] := rfl
        rw [hg] at hb
        exact absurd (List.mem_singleton.mp hb) (by decide)
      · rw [gdeps_pair_ne a ha] at hb
        exact absurd hb (List.not_mem_nil _)
  intro x hx
  obtain ⟨h1, h2⟩ := hstep x x hx
  exact absurd (h1 ▸ h2) (by decide)

/-- C5 witness: the one-edge acyclic graph `a → b` with target `a`; its
order is `[b, a]` and the theorem's conclusions hold of it. -/
theorem c5_resolve_order_witness :
    Acyclic [("a", ["b"])] ∧
    resolveOrder [("a", ["b"])] "a" = ["b", "a"] ∧
    ((∀ x, Reaches [("a", ["b"])] "a" x → x ∈ (resolveOrder [("a", ["b"])] "a").dropLast) ∧
     (resolveOrder [("a", ["b"])] "a").Nodup ∧
     (resolveOrder [("a", ["b"])] "a").getLast? = some "a") :=
  ⟨acyclic_pair, by decide, c5_resolve_order [("a", ["b"])] "a" acyclic_pair⟩

/-- C6 counterexample: with parameter `n = 5` in the table, the distinct
identifier `nx` in the range `1:nx` is corrupted by the plain `str.replace`
substitution to `5x` (even though `nx = 10` is also in the table), so the
range is unevaluable and resolves to the fallback 100, not to
`hi - lo + 1 = 10`. -/
theorem c6_counterexample :
    ([("n", PyVal.int 5), ("nx", PyVal.int 10)].foldl
        (fun acc p => pyreplace acc p.1 (pyStrVal p.2)) "nx") = "5x" ∧
    evaluate_range "1:nx" [("n", .int 5), ("nx", .int 10)] = .ok (100, true) ∧
    (100 : Int) ≠ 10 - 1 + 1 := by decide

/-- C6 amended: substitution is plain textual replacement in table order and
can corrupt an identifier of which a parameter name is a proper substring,
sending that range to the fallback; whenever the two substituted endpoints do
evaluate, the resolved extent is `hi - lo + 1`. -/
theorem c6_amended (expr : String) (params : List (String × PyVal)) (s e : String)
    (sv ev : PyVal)
    (hc : pycontains expr ':' = true)
    (hsplit : (pysplit expr ':').map pystrip = [s, e])
    (hs : pyEval (params.foldl (fun acc p => pyreplace acc p.1 (pyStrVal p.2)) s) = some sv)
    (he : pyEval (params.foldl (fun acc p => pyreplace acc p.1 (pyStrVal p.2)) e) = some ev) :
    evaluate_range expr params = .ok (pyIntOf ev - pyIntOf sv + 1, false) := by
  simp only [evaluate_range, hc, Bool.not_true, if_false, hsplit, hs, he]
  rfl

/-- C6 amended, witness: `1:nx` with only `nx = 10` in the table resolves to
extent 10. -/
theorem c6_amended_witness :
    pycontains "1:nx" ':' = true ∧
    (pysplit "1:nx" ':').map pystrip = ["1", "nx"] ∧
    pyEval ([("nx", PyVal.int 10)].foldl
      (fun acc p => pyreplace acc p.1 (pyStrVal p.2)) "1") = some (.int 1) ∧
    pyEval ([("nx", PyVal.int 10)].foldl
      (fun acc p => pyreplace acc p.1 (pyStrVal p.2)) "nx") = some (.int 10) ∧
    evaluate_range "1:nx" [("nx", .int 10)] =
      .ok (pyIntOf (.int 10) - pyIntOf (.int 1) + 1, false) :=
  ⟨by decide, by decide, by decide, by decide,
   c6_amended "1:nx" [("nx", .int 10)] "1" "nx" (.int 1) (.int 10)
     (by decide) (by decide) (by decide) (by decide)⟩

/-- C8 counterexample: the dimension range `1:2:3` is unevaluable, yet
extent resolution does not return the fallback 100 — the two-way unpacking
of `range_expr.split(':')` raises a `ValueError` that propagates to the
caller, since no `try` protects it. -/
theorem c8_counterexample :
    evaluate_range "1:2:3" [] = .error "too many values to unpack" := by decide

/-- C8 amended: for a range with exactly one `:` whose substituted endpoints
fail to evaluate, resolution returns the fixed fallback extent 100 with a
recorded diagnostic and no error; a range splitting into more than two pieces
instead raises an unpacking `ValueError` to the caller. -/
theorem c8_amended (expr : String) (params : List (String × PyVal)) (s e : String)
    (hc : pycontains expr ':' = true)
    (hsplit : (pysplit expr ':').map pystrip = [s, e])
    (hfail :
      pyEval (params.foldl (fun acc p => pyreplace acc p.1 (pyStrVal p.2)) s) = none ∨
      ∃ sv, pyEval (params.foldl (fun acc p => pyreplace acc p.1 (pyStrVal p.2)) s) = some sv ∧
        pyEval (params.foldl (fun acc p => pyreplace acc p.1 (pyStrVal p.2)) e) = none) :
    evaluate_range expr params = .ok (100, true) := by
  rcases hfail with hs | ⟨sv, hs, he⟩
  · simp only [evaluate_range, hc, Bool.not_true, if_false, hsplit, hs]
    rfl
  · simp only [evaluate_range, hc, Bool.not_true, if_false, hsplit, hs, he]
    rfl

/-- C8 amended, witness: `1:unknown_sym` with an empty table yields the
fallback 100 and the diagnostic. -/
theorem c8_amended_witness :
    pycontains "1:unknown_sym" ':' = true ∧
    (pysplit "1:unknown_sym" ':').map pystrip = ["1", "unknown_sym"] ∧
    pyEval (([] : List (String × PyVal)).foldl
      (fun acc p => pyreplace acc p.1 (pyStrVal p.2)) "1") = some (.int 1) ∧
    pyEval (([] : List (String × PyVal)).foldl
      (fun acc p => pyreplace acc p.1 (pyStrVal p.2)) "unknown_sym") = none ∧
    evaluate_range "1:unknown_sym" [] = .ok (100, true) :=
  ⟨by decide, by decide, by decide, by decide,
   c8_amended "1:unknown_sym" [] "1" "unknown_sym" (by decide) (by decide)
     (Or.inr ⟨.int 1, by decide, by decide⟩)⟩

/-- C9 counterexample: for the derived-type declaration
`type(grid_type) :: mesh`, the recorded entry's name is `grid_type` — the
type tag, `match.group(1)` — not the declared value `mesh`. -/
theorem c9_counterexample :
    analyze_memory_usage [] [] "type(grid_type) :: mesh" =
      .ok { static_arrays := [], allocatable_arrays := [],
            derived_types := [{ name := "grid_type" }] } ∧
    ({ name := "grid_type" } : DerivedTypeUsage) ≠ { name := "mesh" } := by decide

/-- C9 amended: every recorded derived-type entry carries the name of the
derived type tag (the pattern's first capture group), not of the declared
value, and carries nothing else — in particular no byte size is computed or
recorded for derived types. -/
theorem c9_amended (defines : List (String × Bool)) (pcs : List (String × String))
    (content : String) (mi : MemoryInfo)
    (h : analyze_memory_usage defines pcs content = .ok mi) :
    mi.derived_types =
      (scanAll derivedAt (content.data.length + 1) content.data).map
        (fun m => ({ name := m.1 } : DerivedTypeUsage)) := by
  rw [analyze_memory_usage] at h
  simp only [bind, Except.bind, pure, Except.pure] at h
  split at h
  · exact absurd h (by simp)
  · split at h
    · exact absurd h (by simp)
    · injection h with h'
      subst h'
      rfl

/-- C9 amended, witness at the counterexample's declaration. -/
theorem c9_amended_witness :
    analyze_memory_usage [] [] "type(grid_type) :: mesh" =
      .ok { static_arrays := [], allocatable_arrays := [],
            derived_types := [{ name := "grid_type" }] } ∧
    ({ static_arrays := [], allocatable_arrays := [],
       derived_types := [{ name := "grid_type" }] } : MemoryInfo).derived_types =
      (scanAll derivedAt ("type(grid_type) :: mesh".data.length + 1)
          "type(grid_type) :: mesh".data).map
        (fun m => ({ name := m.1 } : DerivedTypeUsage)) :=
  ⟨by decide, c9_amended [] [] "type(grid_type) :: mesh" _ (by decide)⟩

/-- C10 witness: a retained line is not a `#` line, and the unrecognized
directive `#pragma once` leaves an arbitrary concrete state unchanged. -/
theorem c10_witness :
    ("hello" ∈ (processLines ⟨[], [true]⟩ ["hello"]).2) ∧
    pystarts (pystrip "hello") "#" = false ∧
    pystarts (pystrip "#pragma once") "#" = true ∧
    handle_preprocessor_directive ⟨[], [true, false]⟩ "#pragma once" =
      ⟨[], [true, false]⟩ :=
  ⟨by decide, c10_hash_never_output.1 ⟨[], [true]⟩ ["hello"] "hello" (by decide), by decide,
   c10_hash_never_output.2 ⟨[], [true, false]⟩ "#pragma once" (by decide) (by decide)
     (by decide) (by decide) (by decide) (by decide) (by decide)⟩

end MemTools
